import Mathlib

/- Verification of the span library `src/util/span.py` (dftools).

The library manipulates lists of spans.  A span is a pair `(lo, hi)` of
numbers denoting the half-open interval `[lo, hi)`.  We embed the span values
as integers.  The three entry points are `merge_spans`, `invert_spans` and the
class `SpanSet`; all are embedded below with explicit state passing for the
in-place mutation of Python lists, and with `Except` for raised exceptions.
An exception value carries the final contents of the (possibly mutated)
caller list at the moment of the raise, which is what an `in_place=True`
caller observes. -/

/-- A span `(lo, hi)` denotes the half-open interval `[lo, hi)`. -/
abbrev Span : Type := Int × Int

/-- Python exceptions raised by span.py: `ValueError(msg)` or `IndexError`
(the latter from indexing `spans[0]` / `spans[-1]` on an empty list). -/
inductive PyErr : Type where
  | valueError (msg : String) : PyErr
  | indexError : PyErr
deriving DecidableEq, Repr

/-- Python tuple comparison `a <= b` on pairs (lexicographic by first then
second component), the order used by `sorted(spans)` and `spans.sort()`. -/
def spanLe (a b : Span) : Prop := a.1 < b.1 ∨ (a.1 = b.1 ∧ a.2 ≤ b.2)

instance : DecidableRel spanLe := fun a b => by
  unfold spanLe
  infer_instance

instance : IsTotal Span spanLe := by
  constructor
  intro a b
  unfold spanLe
  omega

instance : IsTrans Span spanLe := by
  constructor
  intro a b c
  unfold spanLe
  omega

/-- `sorted(spans)` / `spans.sort()`: Python's stable sort under tuple
comparison.  Two pairs comparing equal under `spanLe` are identical, so every
`spanLe`-sort of a list of pairs returns the same list and stability is
vacuous; we embed the sort as insertion sort, for which sortedness and
permutation lemmas are available. -/
def pySorted (spans : List Span) : List Span := List.insertionSort spanLe spans

/-- Inner sweep of `merge_spans` (source lines 88-139), processing the sorted
span list from the highest index downward.  The Python state is a list plus
indices `i > j`; here it is split positionally:
`rb` holds `spans[0..j]` in descending order (head = `spans[j]`, the next
candidate), `cur` is the running `current_span` value, `pend` holds the
original list elements at indices `j+1..i` (candidates already merged into
`cur`, plus the original current span, not yet overwritten by the final
splice `del spans[j+1:i+1]; insert(j+1, current_span)`), and `above` holds the
finalized elements at indices `> i`.  The branches mirror the source: an empty
candidate is deleted (`del spans[j]; i -= 1; j = i - 1` — the re-scan this
triggers only re-merges the already-merged candidates in `pend`, each of which
is non-empty and still satisfies the merge test against the grown `cur`, so
its net effect is exactly dropping the empty candidate and continuing below
it); an invalid candidate raises `ValueError` with the list still holding
`rb`, the candidate, `pend` and `above`; an overlapping-or-touching candidate
is absorbed into `cur` with the source's conditional expressions; otherwise
the sweep breaks, the splice writes `cur` back, and the candidate becomes the
new current span (`i = j`). -/
def mergeGo : List Span → Span → List Span → List Span →
    Except (PyErr × List Span) (List Span)
  | [], cur, _pend, above => .ok (cur :: above)
  | c :: rb, cur, pend, above =>
    if c.1 = c.2 then
      mergeGo rb cur pend above
    else if c.2 < c.1 then
      .error (.valueError "max must be greater than min",
        (c :: rb).reverse ++ pend ++ above)
    else if cur.1 ≤ c.2 ∧ c.1 ≤ cur.2 then
      mergeGo rb
        ((if cur.1 ≤ c.1 then cur.1 else c.1),
         (if cur.2 ≥ c.2 then cur.2 else c.2))
        (c :: pend) above
    else
      mergeGo rb c [c] (cur :: above)

/-- Outer loop of `merge_spans` establishing each new current span at index
`i` (source lines 89-103 and 139): an empty current span is deleted, an
invalid one raises `ValueError`, a proper one starts the inner sweep.
`rl` is the part of the sorted list not yet processed, in descending order;
`above` is the finalized tail of the list. -/
def mergeOuter : List Span → List Span → Except (PyErr × List Span) (List Span)
  | [], above => .ok above
  | c :: rl, above =>
    if c.1 = c.2 then
      mergeOuter rl above
    else if c.2 < c.1 then
      .error (.valueError "max must be greater than min",
        (c :: rl).reverse ++ above)
    else
      mergeGo rl c [c] above

/-- `merge_spans(spans)`: sort, then sweep from the top index downward.
Returns the final list; on a raised exception, the error carries the list
contents at the raise (what an `in_place=True` caller is left holding). -/
def merge_spans (spans : List Span) : Except (PyErr × List Span) (List Span) :=
  mergeOuter (pySorted spans).reverse []

/-- Call model of `merge_spans(spans, in_place)`: the returned pair is
(Python return value, caller's list after the call).  With `in_place=True`
the function returns `None` and the caller's list has been mutated into the
final list; with `in_place=False` it operates on the copy `sorted(spans)` and
the caller's list is unchanged.  On an exception the caller's list is the
raise-time state when `in_place=True`, the original otherwise. -/
def merge_spans_call (spans : List Span) (inPlace : Bool) :
    Except (PyErr × List Span) (Option (List Span) × List Span) :=
  match merge_spans spans, inPlace with
  | .ok r, true => .ok (none, r)
  | .ok r, false => .ok (some r, spans)
  | .error (e, st), true => .error (e, st)
  | .error (e, _), false => .error (e, spans)

/-- Interior inversion loop of `invert_spans` (source lines 40-49) together
with the `del spans[0]` that follows: index `i` runs from `len-1` down to `1`
replacing `spans[i]` by `(spans[i-1].hi, spans[i].lo)` (both read from the
original values, since positions `< i` are modified only later), and the
untouched first element is then deleted.  The result is the list of
consecutive-pair gap spans. -/
def gaps : List Span → List Span
  | a :: b :: rest => (a.2, b.1) :: gaps (b :: rest)
  | _ => []

/-- `invert_spans(spans, span_min_max)` (source lines 1-69), value plus final
list state on exceptions.  Branch order mirrors the source: invalid bound
check, the empty-input-with-bound special case, sort-and-merge, bound
containment checks against `spans[0][0]` and `spans[-1][1]` (an `IndexError`
when the merged list is empty — also at the later `span_min = spans[0][0]`
line when no bound is given), capture of `span_min`/`span_max`, the
inversion loop, and the conditional leading/trailing bound spans (inserting
in front of an empty list and appending to it coincide). -/
def invert_spans (spans : List Span) (spanMinMax : Option (Int × Int)) :
    Except (PyErr × List Span) (List Span) :=
  match spanMinMax with
  | some (m, M) =>
    if M < m then
      .error (.valueError "span max must be greater than span min", spans)
    else if spans = [] then
      .ok [(m, M)]
    else
      match merge_spans spans with
      | .error es => .error es
      | .ok merged =>
        match merged with
        | [] => .error (.indexError, merged)
        | first :: rest =>
          if first.1 < m then
            .error (.valueError
              "span min must be less than or equal to the smallest span start",
              first :: rest)
          else if (rest.getLastD first).2 > M then
            .error (.valueError
              "span max must be greater than or equal to the largest span end",
              first :: rest)
          else
            let spanMin := first.1
            let spanMax := (rest.getLastD first).2
            let inv := gaps (first :: rest)
            let inv := if m ≠ spanMin then (m, spanMin) :: inv else inv
            let inv := if M ≠ spanMax then inv ++ [(spanMax, M)] else inv
            .ok inv
  | none =>
    match merge_spans spans with
    | .error es => .error es
    | .ok merged =>
      match merged with
      | [] => .error (.indexError, merged)
      | first :: rest => .ok (gaps (first :: rest))

/-- Call model of `invert_spans(spans, span_min_max, in_place)`: the pair is
(Python return value, caller's list after the call).  With `in_place=True`
every mutation (the in-place merge, the inversion loop, insertions and
appends) happens on the caller's list, whose final contents are the result —
or, on an exception, the raise-time state; the function returns `None`.
With `in_place=False` the merge works on a copy and the caller's list is
untouched. -/
def invert_spans_call (spans : List Span) (spanMinMax : Option (Int × Int))
    (inPlace : Bool) :
    Except (PyErr × List Span) (Option (List Span) × List Span) :=
  match invert_spans spans spanMinMax, inPlace with
  | .ok r, true => .ok (none, r)
  | .ok r, false => .ok (some r, spans)
  | .error (e, st), true => .error (e, st)
  | .error (e, _), false => .error (e, spans)

/-- The `SpanSet` class: a record holding the internal list `self.spans`. -/
structure SpanSet : Type where
  spans : List Span
deriving DecidableEq, Repr

/-- `SpanSet(spans)`: the constructor stores `merge_spans(spans)`; the Python
default argument is the empty list. -/
def SpanSet.make (spans : List Span) : Except (PyErr × List Span) SpanSet :=
  (merge_spans spans).map fun r => ⟨r⟩

/-- `SpanSet.add(span)`: append the span, then merge in place.  The returned
`SpanSet` is the object's state after the call; on an exception the state is
the raise-time contents of the internal list (the append has happened and the
in-place merge may have partially rearranged it). -/
def SpanSet.add (s : SpanSet) (span : Span) : Except (PyErr × SpanSet) SpanSet :=
  match merge_spans (s.spans ++ [span]) with
  | .ok r => .ok ⟨r⟩
  | .error (e, st) => .error (e, ⟨st⟩)

/-- `SpanSet.extend(spans)`: append all spans, then merge in place; state
conventions as in `SpanSet.add`. -/
def SpanSet.extend (s : SpanSet) (spans : List Span) :
    Except (PyErr × SpanSet) SpanSet :=
  match merge_spans (s.spans ++ spans) with
  | .ok r => .ok ⟨r⟩
  | .error (e, st) => .error (e, ⟨st⟩)

/-- `SpanSet.inside(value)`: membership scan over the half-open spans. -/
def SpanSet.inside (s : SpanSet) (v : Int) : Bool :=
  s.spans.any fun t => decide (t.1 ≤ v) && decide (v < t.2)

/-- Strict separation of consecutive spans: `s.hi < t.lo` for every adjacent
pair, the spec's order invariant for normalized collections. -/
def separatedb : List Span → Bool
  | s :: t :: rest => decide (s.2 < t.1) && separatedb (t :: rest)
  | _ => true

/-- A normalized collection: strictly separated consecutive spans and every
span non-empty and well-formed (`lo < hi`).  Separation plus well-formedness
imply strict ascending order of the `lo` endpoints. -/
def normalizedb (l : List Span) : Bool :=
  separatedb l && l.all fun s => decide (s.1 < s.2)

/-- A value `v` is covered by a span collection when it lies in the half-open
interval `[lo, hi)` of one of its spans. -/
def covers (l : List Span) (v : Int) : Prop := ∃ s ∈ l, s.1 ≤ v ∧ v < s.2

instance (l : List Span) (v : Int) : Decidable (covers l v) := by
  unfold covers
  infer_instance

instance {ε α : Type} [DecidableEq ε] [DecidableEq α] : DecidableEq (Except ε α) :=
  fun a b =>
    match a, b with
    | .ok x, .ok y =>
      if h : x = y then .isTrue (by rw [h]) else .isFalse (by simp [h])
    | .error x, .error y =>
      if h : x = y then .isTrue (by rw [h]) else .isFalse (by simp [h])
    | .ok _, .error _ => .isFalse (by simp)
    | .error _, .ok _ => .isFalse (by simp)

/-- Spans listed in strictly increasing order of their `lo` endpoints. -/
def loLT (s t : Span) : Prop := s.1 < t.1

/-- Reverse-sorted order on `lo` endpoints, as seen by the downward sweep. -/
def loGE (s t : Span) : Prop := t.1 ≤ s.1

theorem mergeGo_ok (rb : List Span) (cur : Span) (pend above : List Span)
    (hv : ∀ s ∈ rb, s.1 ≤ s.2)
    (hpair : rb.Pairwise loGE)
    (hlo : ∀ s ∈ rb, s.1 ≤ cur.1)
    (hcur : cur.1 < cur.2)
    (hab : List.Chain' loLT above)
    (habLo : ∀ s ∈ above, cur.1 < s.1)
    (habv : ∀ s ∈ above, s.1 < s.2) :
    ∃ c' t', mergeGo rb cur pend above = .ok (c' :: t') ∧ c'.1 ≤ cur.1 ∧
      List.Chain' loLT (c' :: t') ∧ ∀ s ∈ c' :: t', s.1 < s.2 := by
  induction rb generalizing cur pend above with
  | nil =>
    refine ⟨cur, above, rfl, le_refl _, ?_, ?_⟩
    · exact List.chain'_cons'.mpr ⟨fun y hy => habLo y (List.mem_of_mem_head? hy), hab⟩
    · intro s hs
      rcases List.mem_cons.mp hs with h | h
      · exact h ▸ hcur
      · exact habv s h
  | cons c rb ih =>
    have hcv : c.1 ≤ c.2 := hv c (List.mem_cons_self c rb)
    have hvr : ∀ s ∈ rb, s.1 ≤ s.2 := fun s hs => hv s (List.mem_cons_of_mem c hs)
    have hpc := List.pairwise_cons.mp hpair
    by_cases hc : c.1 = c.2
    · simpa only [mergeGo, if_pos hc] using
        ih cur pend above hvr hpc.2 (fun s hs => hlo s (List.mem_cons_of_mem c hs))
          hcur hab habLo habv
    · have hc2 : ¬ c.2 < c.1 := by omega
      by_cases hm : cur.1 ≤ c.2 ∧ c.1 ≤ cur.2
      · simp only [mergeGo, if_neg hc, if_neg hc2, if_pos hm]
        have hm1 : (if cur.1 ≤ c.1 then cur.1 else c.1) ≤ cur.1 := by split <;> omega
        have hm1c : (if cur.1 ≤ c.1 then cur.1 else c.1) ≤ c.1 := by split <;> omega
        have hm2 : cur.2 ≤ (if cur.2 ≥ c.2 then cur.2 else c.2) := by split <;> omega
        obtain ⟨c', t', heq, hle, hch, hvl⟩ :=
          ih ((if cur.1 ≤ c.1 then cur.1 else c.1), (if cur.2 ≥ c.2 then cur.2 else c.2))
            (c :: pend) above hvr hpc.2
            (fun s hs => by
              have h1 := hlo s (List.mem_cons_of_mem c hs)
              have h2 := hpc.1 s hs
              unfold loGE at h2
              simp only
              split <;> omega)
            (by simp only; split <;> split <;> omega)
            hab (fun s hs => lt_of_le_of_lt hm1 (habLo s hs)) habv
        exact ⟨c', t', heq, le_trans hle hm1, hch, hvl⟩
      · simp only [mergeGo, if_neg hc, if_neg hc2, if_neg hm]
        have hclo : c.1 ≤ cur.1 := hlo c (List.mem_cons_self c rb)
        have hbreak : c.2 < cur.1 := by omega
        have hcne : c.1 < c.2 := by omega
        obtain ⟨c', t', heq, hle, hch, hvl⟩ :=
          ih c [c] (cur :: above) hvr hpc.2 (fun s hs => hpc.1 s hs) hcne
            (List.chain'_cons'.mpr ⟨fun y hy => habLo y (List.mem_of_mem_head? hy), hab⟩)
            (fun s hs => by
              rcases List.mem_cons.mp hs with h | h
              · rw [h]
                omega
              · exact lt_trans (by omega) (habLo s h))
            (fun s hs => by
              rcases List.mem_cons.mp hs with h | h
              · exact h ▸ hcur
              · exact habv s h)
        exact ⟨c', t', heq, le_trans hle hclo, hch, hvl⟩

theorem mergeOuter_ok (rl : List Span) (above : List Span)
    (hv : ∀ s ∈ rl, s.1 ≤ s.2)
    (hpair : rl.Pairwise loGE)
    (hab : List.Chain' loLT above)
    (habLo : ∀ c ∈ rl, ∀ s ∈ above, c.1 < s.1)
    (habv : ∀ s ∈ above, s.1 < s.2) :
    ∃ out, mergeOuter rl above = .ok out ∧
      List.Chain' loLT out ∧ ∀ s ∈ out, s.1 < s.2 := by
  induction rl generalizing above with
  | nil => exact ⟨above, rfl, hab, habv⟩
  | cons c rl ih =>
    have hcv : c.1 ≤ c.2 := hv c (List.mem_cons_self c rl)
    have hvr : ∀ s ∈ rl, s.1 ≤ s.2 := fun s hs => hv s (List.mem_cons_of_mem c hs)
    have hpc := List.pairwise_cons.mp hpair
    by_cases hc : c.1 = c.2
    · simpa only [mergeOuter, if_pos hc] using
        ih above hvr hpc.2 hab (fun d hd => habLo d (List.mem_cons_of_mem c hd)) habv
    · have hc2 : ¬ c.2 < c.1 := by omega
      simp only [mergeOuter, if_neg hc, if_neg hc2]
      obtain ⟨c', t', heq, _, hch, hvl⟩ :=
        mergeGo_ok rl c [c] above hvr hpc.2 (fun s hs => hpc.1 s hs) (by omega)
          hab (habLo c (List.mem_cons_self c rl)) habv
      exact ⟨c' :: t', heq, hch, hvl⟩

theorem pySorted_reverse_perm (S : List Span) : ((pySorted S).reverse).Perm S :=
  (List.reverse_perm (pySorted S)).trans (List.perm_insertionSort spanLe S)

theorem merge_spans_ok (S : List Span) (hv : ∀ s ∈ S, s.1 ≤ s.2) :
    ∃ out, merge_spans S = .ok out ∧
      List.Chain' loLT out ∧ ∀ s ∈ out, s.1 < s.2 := by
  have hperm := pySorted_reverse_perm S
  have hv' : ∀ s ∈ (pySorted S).reverse, s.1 ≤ s.2 := fun s hs =>
    hv s (hperm.mem_iff.mp hs)
  have hsort : (pySorted S).Pairwise spanLe :=
    List.sorted_insertionSort spanLe S
  have hpair : ((pySorted S).reverse).Pairwise loGE := by
    rw [List.pairwise_reverse]
    refine hsort.imp ?_
    intro a b h
    unfold spanLe at h
    unfold loGE
    omega
  exact mergeOuter_ok _ [] hv' hpair List.chain'_nil (by simp) (by simp)

theorem covers_nil (v : Int) : covers [] v ↔ False := by
  simp [covers]

theorem covers_cons (c : Span) (l : List Span) (v : Int) :
    covers (c :: l) v ↔ (c.1 ≤ v ∧ v < c.2) ∨ covers l v := by
  constructor
  · rintro ⟨s, hs, h⟩
    rcases List.mem_cons.mp hs with h' | h'
    · exact Or.inl (h' ▸ h)
    · exact Or.inr ⟨s, h', h⟩
  · rintro (h | ⟨s, hs, h⟩)
    · exact ⟨c, List.mem_cons_self c l, h⟩
    · exact ⟨s, List.mem_cons_of_mem c hs, h⟩

theorem mergeGo_covers (rb : List Span) (cur : Span) (pend above out : List Span)
    (heq : mergeGo rb cur pend above = .ok out)
    (hv : ∀ s ∈ rb, s.1 ≤ s.2) (hcur : cur.1 < cur.2) (v : Int) :
    covers out v ↔ covers rb v ∨ (cur.1 ≤ v ∧ v < cur.2) ∨ covers above v := by
  induction rb generalizing cur pend above with
  | nil =>
    have h0 : mergeGo [] cur pend above = .ok (cur :: above) := rfl
    rw [h0] at heq
    injection heq with heq
    subst heq
    rw [covers_cons, covers_nil]
    tauto
  | cons c rb ih =>
    have hcv : c.1 ≤ c.2 := hv c (List.mem_cons_self c rb)
    have hvr : ∀ s ∈ rb, s.1 ≤ s.2 := fun s hs => hv s (List.mem_cons_of_mem c hs)
    rw [covers_cons]
    by_cases hc : c.1 = c.2
    · rw [mergeGo, if_pos hc] at heq
      rw [ih cur pend above heq hvr hcur]
      have : ¬ (c.1 ≤ v ∧ v < c.2) := by omega
      tauto
    · have hc2 : ¬ c.2 < c.1 := by omega
      by_cases hm : cur.1 ≤ c.2 ∧ c.1 ≤ cur.2
      · rw [mergeGo, if_neg hc, if_neg hc2, if_pos hm] at heq
        have hcne : c.1 < c.2 := by omega
        rw [ih _ (c :: pend) above heq hvr (by dsimp only; split <;> split <;> omega)]
        have hiff : (((if cur.1 ≤ c.1 then cur.1 else c.1),
            (if cur.2 ≥ c.2 then cur.2 else c.2)).1 ≤ v ∧
            v < ((if cur.1 ≤ c.1 then cur.1 else c.1),
            (if cur.2 ≥ c.2 then cur.2 else c.2)).2) ↔
            ((c.1 ≤ v ∧ v < c.2) ∨ (cur.1 ≤ v ∧ v < cur.2)) := by
          dsimp only
          split <;> split <;> omega
        rw [hiff]
        tauto
      · rw [mergeGo, if_neg hc, if_neg hc2, if_neg hm] at heq
        have hcne : c.1 < c.2 := by omega
        rw [ih c [c] (cur :: above) heq hvr hcne, covers_cons]
        tauto

theorem mergeOuter_covers (rl : List Span) (above out : List Span)
    (heq : mergeOuter rl above = .ok out)
    (hv : ∀ s ∈ rl, s.1 ≤ s.2) (v : Int) :
    covers out v ↔ covers rl v ∨ covers above v := by
  induction rl generalizing above with
  | nil =>
    have h0 : mergeOuter [] above = .ok above := rfl
    rw [h0] at heq
    injection heq with heq
    subst heq
    rw [covers_nil]
    tauto
  | cons c rl ih =>
    have hcv : c.1 ≤ c.2 := hv c (List.mem_cons_self c rl)
    have hvr : ∀ s ∈ rl, s.1 ≤ s.2 := fun s hs => hv s (List.mem_cons_of_mem c hs)
    rw [covers_cons]
    by_cases hc : c.1 = c.2
    · rw [mergeOuter, if_pos hc] at heq
      rw [ih above heq hvr]
      have : ¬ (c.1 ≤ v ∧ v < c.2) := by omega
      tauto
    · have hc2 : ¬ c.2 < c.1 := by omega
      rw [mergeOuter, if_neg hc, if_neg hc2] at heq
      rw [mergeGo_covers rl c [c] above out heq hvr (by omega)]
      tauto

theorem covers_of_perm {l₁ l₂ : List Span} (h : l₁.Perm l₂) (v : Int) :
    covers l₁ v ↔ covers l₂ v := by
  unfold covers
  constructor
  · rintro ⟨s, hs, hv⟩
    exact ⟨s, h.mem_iff.mp hs, hv⟩
  · rintro ⟨s, hs, hv⟩
    exact ⟨s, h.mem_iff.mpr hs, hv⟩

theorem merge_spans_covers (S out : List Span) (heq : merge_spans S = .ok out)
    (hv : ∀ s ∈ S, s.1 ≤ s.2) (v : Int) :
    covers out v ↔ covers S v := by
  have hperm := pySorted_reverse_perm S
  have hv' : ∀ s ∈ (pySorted S).reverse, s.1 ≤ s.2 := fun s hs =>
    hv s (hperm.mem_iff.mp hs)
  rw [mergeOuter_covers _ [] out heq hv' v, covers_nil, or_false,
    covers_of_perm hperm]

/-- Strict separation of consecutive spans. -/
def sep (s t : Span) : Prop := s.2 < t.1

/-- The normalization property as a proposition: consecutive spans strictly
separated and every span non-empty and well-formed. -/
def SepValid (l : List Span) : Prop :=
  List.Chain' sep l ∧ ∀ s ∈ l, s.1 < s.2

theorem separatedb_iff : ∀ l : List Span,
    separatedb l = true ↔ List.Chain' sep l
  | [] => by simp [separatedb]
  | [s] => by simp [separatedb]
  | s :: t :: r => by
    rw [show separatedb (s :: t :: r) = (decide (s.2 < t.1) && separatedb (t :: r)) from rfl,
      Bool.and_eq_true, decide_eq_true_iff, List.chain'_cons, separatedb_iff (t :: r)]
    exact Iff.rfl

theorem normalizedb_iff (l : List Span) : normalizedb l = true ↔ SepValid l := by
  rw [normalizedb, Bool.and_eq_true, separatedb_iff, List.all_eq_true, SepValid]
  simp only [decide_eq_true_iff]

theorem sepValid_chain_strong {l : List Span} (h : SepValid l) :
    List.Chain' (fun s t : Span => s.2 < t.1 ∧ s.1 < s.2 ∧ t.1 < t.2) l := by
  obtain ⟨hch, hv⟩ := h
  induction l with
  | nil => exact List.chain'_nil
  | cons s l ih =>
    cases l with
    | nil => simp
    | cons t r =>
      obtain ⟨hst, hrest⟩ := List.chain'_cons.mp hch
      exact List.chain'_cons.mpr
        ⟨⟨hst, hv s (by simp), hv t (by simp)⟩,
         ih hrest (fun x hx => hv x (List.mem_cons_of_mem s hx))⟩

theorem SepValid.pairwise_strong {l : List Span} (h : SepValid l) :
    l.Pairwise (fun s t : Span => s.2 < t.1 ∧ s.1 < s.2 ∧ t.1 < t.2) :=
  (@List.chain'_iff_pairwise _ _ ⟨fun _ _ _ h1 h2 => by omega⟩ l).mp
    (sepValid_chain_strong h)

theorem SepValid.sorted {l : List Span} (h : SepValid l) : l.Pairwise spanLe :=
  h.pairwise_strong.imp (fun hab => Or.inl (by omega))

theorem pySorted_of_sepValid {l : List Span} (h : SepValid l) : pySorted l = l :=
  List.Sorted.insertionSort_eq h.sorted

theorem mergeGo_sep (rb : List Span) (cur : Span) (pend above : List Span)
    (hv : ∀ s ∈ rb, s.1 < s.2) (hcur : cur.1 < cur.2)
    (hch : List.Chain' sep (rb.reverse ++ [cur])) :
    mergeGo rb cur pend above = .ok (rb.reverse ++ cur :: above) := by
  induction rb generalizing cur pend above with
  | nil => rfl
  | cons c rb ih =>
    have hcv : c.1 < c.2 := hv c (List.mem_cons_self c rb)
    have hch' : List.Chain' sep ((rb.reverse ++ [c]) ++ [cur]) := by
      simpa [List.append_assoc] using hch
    obtain ⟨hch1, _, hrel⟩ := List.chain'_append.mp hch'
    have hsep : sep c cur :=
      hrel c (by rw [List.getLast?_concat]; rfl) cur rfl
    unfold sep at hsep
    have h1 : ¬ c.1 = c.2 := by omega
    have h2 : ¬ c.2 < c.1 := by omega
    have h3 : ¬ (cur.1 ≤ c.2 ∧ c.1 ≤ cur.2) := by omega
    rw [show mergeGo (c :: rb) cur pend above =
        (if c.1 = c.2 then mergeGo rb cur pend above
         else if c.2 < c.1 then
           .error (.valueError "max must be greater than min",
             (c :: rb).reverse ++ pend ++ above)
         else if cur.1 ≤ c.2 ∧ c.1 ≤ cur.2 then
           mergeGo rb
             ((if cur.1 ≤ c.1 then cur.1 else c.1),
              (if cur.2 ≥ c.2 then cur.2 else c.2))
             (c :: pend) above
         else mergeGo rb c [c] (cur :: above)) from rfl,
      if_neg h1, if_neg h2, if_neg h3,
      ih c [c] (cur :: above) (fun s hs => hv s (List.mem_cons_of_mem c hs)) hcv hch1]
    simp [List.append_assoc]

theorem mergeOuter_sep (rl : List Span)
    (hv : ∀ s ∈ rl, s.1 < s.2) (hch : List.Chain' sep rl.reverse) :
    mergeOuter rl [] = .ok rl.reverse := by
  cases rl with
  | nil => rfl
  | cons c rb =>
    have hcv : c.1 < c.2 := hv c (List.mem_cons_self c rb)
    have h1 : ¬ c.1 = c.2 := by omega
    have h2 : ¬ c.2 < c.1 := by omega
    rw [show mergeOuter (c :: rb) [] =
        (if c.1 = c.2 then mergeOuter rb []
         else if c.2 < c.1 then
           .error (.valueError "max must be greater than min", (c :: rb).reverse ++ [])
         else mergeGo rb c [c] []) from rfl,
      if_neg h1, if_neg h2,
      mergeGo_sep rb c [c] [] (fun s hs => hv s (List.mem_cons_of_mem c hs)) hcv
        (by simpa using hch)]
    simp

theorem merge_spans_of_sepValid {S : List Span} (h : SepValid S) :
    merge_spans S = .ok S := by
  rw [merge_spans, pySorted_of_sepValid h,
    mergeOuter_sep S.reverse
      (fun s hs => h.2 s (List.mem_reverse.mp hs))
      (by rw [List.reverse_reverse]; exact h.1)]
  rw [List.reverse_reverse]

theorem gaps_cons_cons (a b : Span) (l : List Span) :
    gaps (a :: b :: l) = (a.2, b.1) :: gaps (b :: l) := rfl

theorem gaps_concat : ∀ (l : List Span) (x a : Span),
    gaps (x :: (l ++ [a])) = gaps (x :: l) ++ [((l.getLastD x).2, a.1)]
  | [], x, a => rfl
  | y :: l', x, a => by
    rw [show x :: ((y :: l') ++ [a]) = x :: y :: (l' ++ [a]) from rfl,
      gaps_cons_cons, gaps_concat l' y a, gaps_cons_cons, List.getLastD_cons]
    rfl

theorem gaps_gaps : ∀ (x : Span) (l : List Span), gaps (gaps (x :: l)) = l.dropLast
  | _, [] => rfl
  | _, [_] => rfl
  | x, y :: z :: l' => by
    rw [show gaps (gaps (x :: y :: z :: l')) =
        (y.1, y.2) :: gaps (gaps (y :: z :: l')) from rfl,
      gaps_gaps y (z :: l'), List.dropLast_cons₂]

theorem sepValid_nil : SepValid [] := ⟨List.chain'_nil, by simp⟩

theorem sepValid_single {a : Span} (h : a.1 < a.2) : SepValid [a] := by
  refine ⟨by simp, ?_⟩
  intro s hs
  rw [List.mem_singleton.mp hs]
  exact h

theorem sepValid_cons {a : Span} {l : List Span} (ha : a.1 < a.2)
    (hrel : ∀ b ∈ l.head?, a.2 < b.1) (h : SepValid l) : SepValid (a :: l) := by
  refine ⟨List.chain'_cons'.mpr ⟨hrel, h.1⟩, ?_⟩
  intro s hs
  rcases List.mem_cons.mp hs with h' | h'
  · exact h' ▸ ha
  · exact h.2 s h'

theorem sepValid_concat {a : Span} {l : List Span} (ha : a.1 < a.2)
    (hrel : ∀ b ∈ l.getLast?, b.2 < a.1) (h : SepValid l) : SepValid (l ++ [a]) := by
  refine ⟨List.chain'_append.mpr ⟨h.1, by simp, ?_⟩, ?_⟩
  · intro x hx y hy
    injection hy with hy
    subst hy
    exact hrel x hx
  · intro s hs
    rcases List.mem_append.mp hs with h' | h'
    · exact h.2 s h'
    · rw [List.mem_singleton.mp h']
      exact ha

theorem sepValid_gaps : ∀ (s : Span) (rest : List Span),
    SepValid (s :: rest) → SepValid (gaps (s :: rest))
  | _, [], _ => sepValid_nil
  | s, [t], h => by
    have hst : s.2 < t.1 := (List.chain'_cons.mp h.1).1
    exact sepValid_single hst
  | s, t :: u :: r, h => by
    have hst : s.2 < t.1 := (List.chain'_cons.mp h.1).1
    have htv : t.1 < t.2 := h.2 t (by simp)
    have htail : SepValid (t :: u :: r) :=
      ⟨(List.chain'_cons.mp h.1).2, fun x hx => h.2 x (List.mem_cons_of_mem s hx)⟩
    have ih := sepValid_gaps t (u :: r) htail
    rw [gaps_cons_cons]
    exact sepValid_cons hst (by rw [gaps_cons_cons]; intro b hb; cases hb; exact htv) ih

theorem invert_norm (s : Span) (rest : List Span) (m M : Int)
    (h : SepValid (s :: rest)) (hm : m ≤ s.1) (hM : (rest.getLastD s).2 ≤ M) :
    invert_spans (s :: rest) (some (m, M)) =
      .ok ((if m = s.1 then [] else [(m, s.1)]) ++ gaps (s :: rest) ++
           (if M = (rest.getLastD s).2 then [] else [((rest.getLastD s).2, M)])) := by
  have hs : s.1 < s.2 := h.2 s (by simp)
  have hlastv : (rest.getLastD s).1 < (rest.getLastD s).2 :=
    h.2 _ (List.getLastD_mem_cons rest s)
  have hslast : s.1 ≤ (rest.getLastD s).1 := by
    rcases List.mem_cons.mp (List.getLastD_mem_cons rest s) with h' | h'
    · rw [h']
    · have := (List.pairwise_cons.mp h.pairwise_strong).1 _ h'
      omega
  have hMm : ¬ M < m := by omega
  have hne : ¬ (s :: rest = ([] : List Span)) := by simp
  rw [show invert_spans (s :: rest) (some (m, M)) =
      (if M < m then
        .error (.valueError "span max must be greater than span min", s :: rest)
      else if (s :: rest) = [] then .ok [(m, M)]
      else
        match merge_spans (s :: rest) with
        | .error es => .error es
        | .ok merged =>
          match merged with
          | [] => .error (.indexError, merged)
          | first :: rest2 =>
            if first.1 < m then
              .error (.valueError
                "span min must be less than or equal to the smallest span start",
                first :: rest2)
            else if (rest2.getLastD first).2 > M then
              .error (.valueError
                "span max must be greater than or equal to the largest span end",
                first :: rest2)
            else
              let spanMin := first.1
              let spanMax := (rest2.getLastD first).2
              let inv := gaps (first :: rest2)
              let inv := if m ≠ spanMin then (m, spanMin) :: inv else inv
              let inv := if M ≠ spanMax then inv ++ [(spanMax, M)] else inv
              .ok inv) from rfl,
    if_neg hMm, if_neg hne, merge_spans_of_sepValid h]
  have h1 : ¬ s.1 < m := by omega
  have h2 : ¬ (rest.getLastD s).2 > M := by omega
  simp only [if_neg h1, if_neg h2]
  by_cases hml : m = s.1 <;> by_cases hMl : M = (rest.getLastD s).2 <;>
    rw [List.getLastD_eq_getLast? s rest] at hMl <;>
    simp [hml, hMl, List.getLastD_eq_getLast?]

theorem invert_nil_bound (m M : Int) (h : ¬ M < m) :
    invert_spans [] (some (m, M)) = .ok [(m, M)] := by
  unfold invert_spans
  simp [h]

theorem invert_invert (s : Span) (rest : List Span) (m M : Int)
    (h : SepValid (s :: rest)) (hm : m ≤ s.1) (hM : (rest.getLastD s).2 ≤ M) :
    ∃ T, invert_spans (s :: rest) (some (m, M)) = .ok T ∧
      invert_spans T (some (m, M)) = .ok (s :: rest) := by
  have hs : s.1 < s.2 := h.2 s (by simp)
  refine ⟨_, invert_norm s rest m M h hm hM, ?_⟩
  rcases rest with _ | ⟨t, r⟩
  · -- singleton input: the gap list is empty and the last span is s itself
    have hMs : s.2 ≤ M := hM
    by_cases hml : m = s.1 <;> by_cases hMl : M = s.2
    · subst hml
      subst hMl
      have hT : ((if s.1 = s.1 then ([] : List Span) else [(s.1, s.1)]) ++ gaps [s] ++
          (if s.2 = (List.getLastD [] s).2 then ([] : List Span)
           else [((List.getLastD [] s).2, s.2)])) = [] := by
        simp [gaps, List.getLastD]
      rw [hT, invert_nil_bound s.1 s.2 (by omega)]
    · subst hml
      have hT : ((if s.1 = s.1 then ([] : List Span) else [(s.1, s.1)]) ++ gaps [s] ++
          (if M = (List.getLastD [] s).2 then ([] : List Span)
           else [((List.getLastD [] s).2, M)])) = [(s.2, M)] := by
        simp [gaps, List.getLastD, hMl]
      rw [hT, invert_norm (s.2, M) [] s.1 M (sepValid_single (by omega))
        (by omega) (by simp [List.getLastD])]
      have h1 : ¬ s.1 = (s.2, M).1 := by simp; omega
      simp [gaps, List.getLastD, if_neg h1]
    · subst hMl
      have hT : ((if m = s.1 then ([] : List Span) else [(m, s.1)]) ++ gaps [s] ++
          (if s.2 = (List.getLastD [] s).2 then ([] : List Span)
           else [((List.getLastD [] s).2, s.2)])) = [(m, s.1)] := by
        simp [gaps, List.getLastD, hml]
      rw [hT, invert_norm (m, s.1) [] m s.2 (sepValid_single (by omega))
        (by simp) (by simp [List.getLastD]; omega)]
      have h2 : ¬ s.2 = (List.getLastD [] (m, s.1)).2 := by simp [List.getLastD]; omega
      simp [gaps, List.getLastD, if_neg h2]
      omega
    · have hT : ((if m = s.1 then ([] : List Span) else [(m, s.1)]) ++ gaps [s] ++
          (if M = (List.getLastD [] s).2 then ([] : List Span)
           else [((List.getLastD [] s).2, M)])) = [(m, s.1), (s.2, M)] := by
        simp [gaps, List.getLastD, hml, hMl]
      rw [hT, invert_norm (m, s.1) [(s.2, M)] m M
        (sepValid_cons (by omega) (by intro b hb; injection hb with hb; subst hb; exact hs)
          (sepValid_single (by omega)))
        (by simp) (by simp [List.getLastD])]
      simp [gaps, List.getLastD]
  · rcases List.eq_nil_or_concat r with hr | ⟨mid, z, hr⟩
    · -- two spans s, t
      subst hr
      have hst : s.2 < t.1 := (List.chain'_cons.mp h.1).1
      have htv : t.1 < t.2 := h.2 t (by simp)
      have hMt : t.2 ≤ M := by simpa [List.getLastD] using hM
      by_cases hml : m = s.1 <;> by_cases hMl : M = t.2
      · subst hml
        subst hMl
        have hT : ((if s.1 = s.1 then ([] : List Span) else [(s.1, s.1)]) ++
            gaps [s, t] ++
            (if t.2 = (List.getLastD [t] s).2 then ([] : List Span)
             else [((List.getLastD [t] s).2, t.2)])) = [(s.2, t.1)] := by
          simp [gaps, List.getLastD]
        rw [hT, invert_norm (s.2, t.1) [] s.1 t.2 (sepValid_single (by omega))
          (by simp; omega) (by simp [List.getLastD]; omega)]
        have h1 : ¬ s.1 = (s.2, t.1).1 := by simp; omega
        have h2 : ¬ t.2 = (List.getLastD [] (s.2, t.1)).2 := by
          simp [List.getLastD]; omega
        simp [gaps, List.getLastD, if_neg h1, if_neg h2]
        omega
      · subst hml
        have hT : ((if s.1 = s.1 then ([] : List Span) else [(s.1, s.1)]) ++
            gaps [s, t] ++
            (if M = (List.getLastD [t] s).2 then ([] : List Span)
             else [((List.getLastD [t] s).2, M)])) = [(s.2, t.1), (t.2, M)] := by
          simp [gaps, List.getLastD, hMl]
        rw [hT, invert_norm (s.2, t.1) [(t.2, M)] s.1 M
          (sepValid_cons (by omega)
            (by intro b hb; injection hb with hb; subst hb; simp; omega)
            (sepValid_single (by omega)))
          (by simp; omega) (by simp [List.getLastD])]
        have h1 : ¬ s.1 = (s.2, t.1).1 := by simp; omega
        simp [gaps, List.getLastD, if_neg h1]
      · subst hMl
        have hT : ((if m = s.1 then ([] : List Span) else [(m, s.1)]) ++
            gaps [s, t] ++
            (if t.2 = (List.getLastD [t] s).2 then ([] : List Span)
             else [((List.getLastD [t] s).2, t.2)])) = [(m, s.1), (s.2, t.1)] := by
          simp [gaps, List.getLastD, hml]
        rw [hT, invert_norm (m, s.1) [(s.2, t.1)] m t.2
          (sepValid_cons (by omega)
            (by intro b hb; injection hb with hb; subst hb; exact hs)
            (sepValid_single (by omega)))
          (by simp) (by simp [List.getLastD]; omega)]
        have h2 : ¬ t.2 = (List.getLastD [(s.2, t.1)] (m, s.1)).2 := by
          simp [List.getLastD]; omega
        simp [gaps, List.getLastD, if_neg h2]
        omega
      · have hT : ((if m = s.1 then ([] : List Span) else [(m, s.1)]) ++
            gaps [s, t] ++
            (if M = (List.getLastD [t] s).2 then ([] : List Span)
             else [((List.getLastD [t] s).2, M)])) =
            [(m, s.1), (s.2, t.1), (t.2, M)] := by
          simp [gaps, List.getLastD, hml, hMl]
        rw [hT, invert_norm (m, s.1) [(s.2, t.1), (t.2, M)] m M
          (sepValid_cons (by omega)
            (by intro b hb; injection hb with hb; subst hb; exact hs)
            (sepValid_cons (by omega)
              (by intro b hb; injection hb with hb; subst hb; simp; omega)
              (sepValid_single (by omega))))
          (by simp) (by simp [List.getLastD])]
        simp [gaps, List.getLastD]
    · -- at least three spans: s, t, middle, and last span z
      subst hr
      rw [List.concat_eq_append] at *
      have hst : s.2 < t.1 := (List.chain'_cons.mp h.1).1
      have htv : t.1 < t.2 := h.2 t (by simp)
      have hzv : z.1 < z.2 := h.2 z (by simp)
      have hMz : z.2 ≤ M := by
        rw [List.getLastD_cons, List.getLastD_concat] at hM
        exact hM
      have hG : SepValid (gaps (s :: t :: (mid ++ [z]))) :=
        sepValid_gaps s (t :: (mid ++ [z])) h
      have hGshape : gaps (s :: t :: (mid ++ [z])) =
          (s.2, t.1) :: (gaps (t :: mid) ++ [((mid.getLastD t).2, z.1)]) := by
        rw [gaps_cons_cons, gaps_concat]
      have hGgaps : gaps (gaps (s :: t :: (mid ++ [z]))) = t :: mid := by
        rw [gaps_gaps s (t :: (mid ++ [z])), ← List.cons_append, List.dropLast_concat]
      have hGlast : (gaps (t :: mid) ++ [((mid.getLastD t).2, z.1)]).getLastD (s.2, t.1)
          = ((mid.getLastD t).2, z.1) := List.getLastD_concat _ _ _
      have hGlast? : (gaps (s :: t :: (mid ++ [z]))).getLast? =
          some ((mid.getLastD t).2, z.1) := by
        rw [hGshape, ← List.cons_append, List.getLast?_concat]
      have hGgapsHead : gaps ((s.2, t.1) :: (gaps (t :: mid) ++
          [((mid.getLastD t).2, z.1)])) = t :: mid := by
        rw [← hGshape, hGgaps]
      rw [List.getLastD_cons, List.getLastD_concat]
      by_cases hml : m = s.1 <;> by_cases hMl : M = z.2
      · -- no bound spans are added by the first inversion
        have hT : ((if m = s.1 then ([] : List Span) else [(m, s.1)]) ++
            gaps (s :: t :: (mid ++ [z])) ++
            (if M = z.2 then ([] : List Span) else [(z.2, M)])) =
            (s.2, t.1) :: (gaps (t :: mid) ++ [((mid.getLastD t).2, z.1)]) := by
          rw [if_pos hml, if_pos hMl, hGshape]
          simp
        rw [hT, invert_norm (s.2, t.1) (gaps (t :: mid) ++ [((mid.getLastD t).2, z.1)])
          m M (hGshape ▸ hG) (by simp only []; omega)
          (by rw [hGlast]; omega)]
        have h1 : ¬ m = (s.2, t.1).1 := by simp only []; omega
        have h2 : ¬ M = ((gaps (t :: mid) ++ [((mid.getLastD t).2, z.1)]).getLastD
            (s.2, t.1)).2 := by rw [hGlast]; simp only []; omega
        rw [if_neg h1, if_neg h2, hGlast, hGgapsHead, hml, hMl]
        simp
      · -- only the trailing bound span is added
        have hT : ((if m = s.1 then ([] : List Span) else [(m, s.1)]) ++
            gaps (s :: t :: (mid ++ [z])) ++
            (if M = z.2 then ([] : List Span) else [(z.2, M)])) =
            (s.2, t.1) :: ((gaps (t :: mid) ++ [((mid.getLastD t).2, z.1)]) ++
              [(z.2, M)]) := by
          rw [if_pos hml, if_neg hMl, hGshape]
          simp
        rw [hT, invert_norm (s.2, t.1)
          ((gaps (t :: mid) ++ [((mid.getLastD t).2, z.1)]) ++ [(z.2, M)]) m M
          (by
            rw [← List.cons_append]
            refine sepValid_concat (by omega) ?_ (hGshape ▸ hG)
            rw [← hGshape, hGlast?]
            intro b hb
            injection hb with hb
            subst hb
            simp only []
            omega)
          (by simp only []; omega)
          (by rw [List.getLastD_concat])]
        have h1 : ¬ m = (s.2, t.1).1 := by simp only []; omega
        rw [if_neg h1, List.getLastD_concat, if_pos rfl,
          gaps_concat (gaps (t :: mid) ++ [((mid.getLastD t).2, z.1)])
            (s.2, t.1) (z.2, M), hGlast, hGgapsHead, hml]
        simp
      · -- only the leading bound span is added
        have hT : ((if m = s.1 then ([] : List Span) else [(m, s.1)]) ++
            gaps (s :: t :: (mid ++ [z])) ++
            (if M = z.2 then ([] : List Span) else [(z.2, M)])) =
            (m, s.1) :: ((s.2, t.1) :: (gaps (t :: mid) ++
              [((mid.getLastD t).2, z.1)])) := by
          rw [if_neg hml, if_pos hMl, hGshape]
          simp
        rw [hT, invert_norm (m, s.1)
          ((s.2, t.1) :: (gaps (t :: mid) ++ [((mid.getLastD t).2, z.1)])) m M
          (sepValid_cons (by omega)
            (by intro b hb; injection hb with hb; subst hb; exact hs)
            (hGshape ▸ hG))
          (le_refl m) (by rw [List.getLastD_cons, hGlast]; simp only []; omega)]
        have h2 : ¬ M = (((s.2, t.1) :: (gaps (t :: mid) ++
            [((mid.getLastD t).2, z.1)])).getLastD (m, s.1)).2 := by
          rw [List.getLastD_cons, hGlast]
          simp only []
          omega
        rw [if_pos rfl, if_neg h2, List.getLastD_cons, hGlast,
          show gaps ((m, s.1) :: (s.2, t.1) :: (gaps (t :: mid) ++
            [((mid.getLastD t).2, z.1)])) = (s.1, s.2) :: gaps ((s.2, t.1) ::
            (gaps (t :: mid) ++ [((mid.getLastD t).2, z.1)])) from rfl,
          hGgapsHead, hMl]
        simp
      · -- both bound spans are added
        have hT : ((if m = s.1 then ([] : List Span) else [(m, s.1)]) ++
            gaps (s :: t :: (mid ++ [z])) ++
            (if M = z.2 then ([] : List Span) else [(z.2, M)])) =
            (m, s.1) :: (((s.2, t.1) :: (gaps (t :: mid) ++
              [((mid.getLastD t).2, z.1)])) ++ [(z.2, M)]) := by
          rw [if_neg hml, if_neg hMl, hGshape]
          simp
        rw [hT, invert_norm (m, s.1)
          (((s.2, t.1) :: (gaps (t :: mid) ++ [((mid.getLastD t).2, z.1)])) ++
            [(z.2, M)]) m M
          (by
            refine sepValid_cons (by omega) ?_ ?_
            · intro b hb
              injection hb with hb
              subst hb
              exact hs
            · refine sepValid_concat (by omega) ?_ (hGshape ▸ hG)
              rw [← hGshape, hGlast?]
              intro b hb
              injection hb with hb
              subst hb
              simp only []
              omega)
          (le_refl m) (by rw [List.getLastD_concat])]
        rw [if_pos rfl, List.getLastD_concat, if_pos rfl,
          gaps_concat ((s.2, t.1) :: (gaps (t :: mid) ++
            [((mid.getLastD t).2, z.1)])) (m, s.1) (z.2, M),
          List.getLastD_cons, hGlast,
          show gaps ((m, s.1) :: (s.2, t.1) :: (gaps (t :: mid) ++
            [((mid.getLastD t).2, z.1)])) = (s.1, s.2) :: gaps ((s.2, t.1) ::
            (gaps (t :: mid) ++ [((mid.getLastD t).2, z.1)])) from rfl,
          hGgapsHead]
        simp

theorem mergeGo_all_empty (rl : List Span) (cur : Span) (pend above : List Span)
    (h : ∀ c ∈ rl, c.1 = c.2) :
    mergeGo rl cur pend above = .ok (cur :: above) := by
  induction rl generalizing pend with
  | nil => rfl
  | cons c rl ih =>
    have hc : c.1 = c.2 := h c (List.mem_cons_self c rl)
    rw [show mergeGo (c :: rl) cur pend above =
        (if c.1 = c.2 then mergeGo rl cur pend above
         else if c.2 < c.1 then
           .error (.valueError "max must be greater than min",
             (c :: rl).reverse ++ pend ++ above)
         else if cur.1 ≤ c.2 ∧ c.1 ≤ cur.2 then
           mergeGo rl
             ((if cur.1 ≤ c.1 then cur.1 else c.1),
              (if cur.2 ≥ c.2 then cur.2 else c.2))
             (c :: pend) above
         else mergeGo rl c [c] (cur :: above)) from rfl,
      if_pos hc]
    exact ih pend (fun d hd => h d (List.mem_cons_of_mem c hd))

theorem mergeOuter_single (rl : List Span) (t : Span)
    (hv : ∀ c ∈ rl, c.1 ≤ c.2)
    (hfil : rl.filter (fun c => decide (c.1 ≠ c.2)) = [t]) :
    mergeOuter rl [] = .ok [t] := by
  induction rl with
  | nil => simp at hfil
  | cons c rl ih =>
    rw [List.filter_cons] at hfil
    by_cases hc : c.1 = c.2
    · rw [if_neg (by simp [hc])] at hfil
      rw [show mergeOuter (c :: rl) [] =
          (if c.1 = c.2 then mergeOuter rl []
           else if c.2 < c.1 then
             .error (.valueError "max must be greater than min",
               (c :: rl).reverse ++ [])
           else mergeGo rl c [c] []) from rfl, if_pos hc]
      exact ih (fun d hd => hv d (List.mem_cons_of_mem c hd)) hfil
    · rw [if_pos (by simp [hc])] at hfil
      injection hfil with hct1 hct2
      have hrl : ∀ d ∈ rl, d.1 = d.2 := by
        intro d hd
        by_contra hne
        have : d ∈ rl.filter (fun c => decide (c.1 ≠ c.2)) :=
          List.mem_filter.mpr ⟨hd, by simpa using hne⟩
        rw [hct2] at this
        simp at this
      have hcv : c.1 ≤ c.2 := hv c (List.mem_cons_self c rl)
      rw [show mergeOuter (c :: rl) [] =
          (if c.1 = c.2 then mergeOuter rl []
           else if c.2 < c.1 then
             .error (.valueError "max must be greater than min",
               (c :: rl).reverse ++ [])
           else mergeGo rl c [c] []) from rfl,
        if_neg hc, if_neg (by omega), mergeGo_all_empty rl c [c] [] hrl, hct1]

theorem merge_spans_single (S : List Span) (t : Span)
    (hv : ∀ s ∈ S, s.1 ≤ s.2)
    (hfil : S.filter (fun c => decide (c.1 ≠ c.2)) = [t]) :
    merge_spans S = .ok [t] := by
  have hperm := pySorted_reverse_perm S
  refine mergeOuter_single _ t (fun s hs => hv s (hperm.mem_iff.mp hs)) ?_
  have : ((pySorted S).reverse.filter (fun c => decide (c.1 ≠ c.2))).Perm
      (S.filter (fun c => decide (c.1 ≠ c.2))) :=
    hperm.filter _
  rw [hfil] at this
  exact List.perm_singleton.mp this

theorem merged_head_le_last (out : List Span) (first : Span) (rest2 : List Span)
    (hout : out = first :: rest2)
    (hch : List.Chain' loLT out) (hv : ∀ s ∈ out, s.1 < s.2) :
    first.1 ≤ (rest2.getLastD first).2 := by
  subst hout
  have hmem : rest2.getLastD first ∈ first :: rest2 := List.getLastD_mem_cons rest2 first
  have hlv : (rest2.getLastD first).1 < (rest2.getLastD first).2 := hv _ hmem
  rcases List.mem_cons.mp hmem with h' | h'
  · rw [h'] at hlv ⊢
    omega
  · have hpair : (first :: rest2).Pairwise loLT :=
      (@List.chain'_iff_pairwise Span loLT
        ⟨fun a b c h1 h2 => by unfold loLT at *; omega⟩ (first :: rest2)).mp hch
    have : loLT first (rest2.getLastD first) :=
      (List.pairwise_cons.mp hpair).1 _ h'
    unfold loLT at this
    omega

theorem invert_spans_eq_of_merge (S : List Span) (m M : Int) (L : List Span)
    (hMm : ¬ M < m) (hS : ¬ S = []) (hmer : merge_spans S = .ok L) :
    invert_spans S (some (m, M)) =
      (match L with
       | [] => .error (.indexError, L)
       | first :: rest2 =>
         if first.1 < m then
           .error (.valueError
             "span min must be less than or equal to the smallest span start",
             first :: rest2)
         else if (rest2.getLastD first).2 > M then
           .error (.valueError
             "span max must be greater than or equal to the largest span end",
             first :: rest2)
         else
           .ok (if M ≠ (rest2.getLastD first).2 then
                  (if m ≠ first.1 then (m, first.1) :: gaps (first :: rest2)
                   else gaps (first :: rest2)) ++ [((rest2.getLastD first).2, M)]
                else
                  (if m ≠ first.1 then (m, first.1) :: gaps (first :: rest2)
                   else gaps (first :: rest2)))) := by
  have h0 : invert_spans S (some (m, M)) =
      (fun r : Except (PyErr × List Span) (List Span) =>
        match r with
        | .error es => .error es
        | .ok merged =>
          match merged with
          | [] => .error (.indexError, merged)
          | first :: rest2 =>
            if first.1 < m then
              .error (.valueError
                "span min must be less than or equal to the smallest span start",
                first :: rest2)
            else if (rest2.getLastD first).2 > M then
              .error (.valueError
                "span max must be greater than or equal to the largest span end",
                first :: rest2)
            else
              let spanMin := first.1
              let spanMax := (rest2.getLastD first).2
              let inv := gaps (first :: rest2)
              let inv := if m ≠ spanMin then (m, spanMin) :: inv else inv
              let inv := if M ≠ spanMax then inv ++ [(spanMax, M)] else inv
              .ok inv) (merge_spans S) := by
    rw [show invert_spans S (some (m, M)) =
        (if M < m then
          .error (.valueError "span max must be greater than span min", S)
        else if S = [] then .ok [(m, M)]
        else
          (fun r : Except (PyErr × List Span) (List Span) =>
            match r with
            | .error es => .error es
            | .ok merged =>
              match merged with
              | [] => .error (.indexError, merged)
              | first :: rest2 =>
                if first.1 < m then
                  .error (.valueError
                    "span min must be less than or equal to the smallest span start",
                    first :: rest2)
                else if (rest2.getLastD first).2 > M then
                  .error (.valueError
                    "span max must be greater than or equal to the largest span end",
                    first :: rest2)
                else
                  let spanMin := first.1
                  let spanMax := (rest2.getLastD first).2
                  let inv := gaps (first :: rest2)
                  let inv := if m ≠ spanMin then (m, spanMin) :: inv else inv
                  let inv := if M ≠ spanMax then inv ++ [(spanMax, M)] else inv
                  .ok inv) (merge_spans S)) from rfl,
      if_neg hMm, if_neg hS]
  rw [h0]
  simp only [hmer]
  cases L <;> rfl

theorem invert_spans_none_eq (S : List Span) (L : List Span)
    (hmer : merge_spans S = .ok L) :
    invert_spans S none =
      (match L with
       | [] => .error (.indexError, L)
       | first :: rest2 => .ok (gaps (first :: rest2))) := by
  rw [show invert_spans S none =
      (fun r : Except (PyErr × List Span) (List Span) =>
        match r with
        | .error es => .error es
        | .ok merged =>
          match merged with
          | [] => .error (.indexError, merged)
          | first :: rest2 => .ok (gaps (first :: rest2))) (merge_spans S)
      from rfl]
  simp only [hmer]
  cases L <;> rfl

theorem invert_spans_some_eq (S : List Span) (m M : Int) :
    invert_spans S (some (m, M)) =
      (if M < m then
        .error (.valueError "span max must be greater than span min", S)
      else if S = [] then .ok [(m, M)]
      else
        (fun r : Except (PyErr × List Span) (List Span) =>
          match r with
          | .error es => .error es
          | .ok merged =>
            match merged with
            | [] => .error (.indexError, merged)
            | first :: rest2 =>
              if first.1 < m then
                .error (.valueError
                  "span min must be less than or equal to the smallest span start",
                  first :: rest2)
              else if (rest2.getLastD first).2 > M then
                .error (.valueError
                  "span max must be greater than or equal to the largest span end",
                  first :: rest2)
              else
                let spanMin := first.1
                let spanMax := (rest2.getLastD first).2
                let inv := gaps (first :: rest2)
                let inv := if m ≠ spanMin then (m, spanMin) :: inv else inv
                let inv := if M ≠ spanMax then inv ++ [(spanMax, M)] else inv
                .ok inv) (merge_spans S)) := rfl

theorem invert_bound_invalid (S : List Span) (m M : Int) (hMm : M < m) :
    invert_spans S (some (m, M)) =
      .error (.valueError "span max must be greater than span min", S) := by
  rw [invert_spans_some_eq, if_pos hMm]

theorem invert_spans_eq_of_merge_cons (S : List Span) (m M : Int)
    (first : Span) (rest2 : List Span)
    (hMm : ¬ M < m) (hS : ¬ S = []) (hmer : merge_spans S = .ok (first :: rest2)) :
    invert_spans S (some (m, M)) =
      (if first.1 < m then
        .error (.valueError
          "span min must be less than or equal to the smallest span start",
          first :: rest2)
      else if (rest2.getLastD first).2 > M then
        .error (.valueError
          "span max must be greater than or equal to the largest span end",
          first :: rest2)
      else
        .ok (if M ≠ (rest2.getLastD first).2 then
               (if m ≠ first.1 then (m, first.1) :: gaps (first :: rest2)
                else gaps (first :: rest2)) ++ [((rest2.getLastD first).2, M)]
             else
               (if m ≠ first.1 then (m, first.1) :: gaps (first :: rest2)
                else gaps (first :: rest2)))) := by
  rw [invert_spans_eq_of_merge S m M (first :: rest2) hMm hS hmer]

theorem mergeGo_cons_eq (c : Span) (rb : List Span) (cur : Span)
    (pend above : List Span) :
    mergeGo (c :: rb) cur pend above =
      (if c.1 = c.2 then mergeGo rb cur pend above
       else if c.2 < c.1 then
         .error (.valueError "max must be greater than min",
           (c :: rb).reverse ++ pend ++ above)
       else if cur.1 ≤ c.2 ∧ c.1 ≤ cur.2 then
         mergeGo rb
           ((if cur.1 ≤ c.1 then cur.1 else c.1),
            (if cur.2 ≥ c.2 then cur.2 else c.2))
           (c :: pend) above
       else mergeGo rb c [c] (cur :: above)) := rfl

/-- C1: in the merge sweep, a non-empty well-formed candidate span is
coalesced into the current span exactly when `current.lo ≤ candidate.hi` and
`candidate.lo ≤ current.hi` (overlap or touching boundaries; a zero gap
merges, any positive gap breaks the sweep); in particular
`merge([(1,3),(3,5)]) = [(1,5)]` (touching spans merge) and
`merge([(1,3),(4,5)]) = [(1,3),(4,5)]` (a positive gap is preserved). -/
theorem claim_C1 :
    (∀ (cur c : Span) (rb pend above : List Span), ¬ c.1 = c.2 → ¬ c.2 < c.1 →
      mergeGo (c :: rb) cur pend above =
        (if cur.1 ≤ c.2 ∧ c.1 ≤ cur.2 then
          mergeGo rb
            ((if cur.1 ≤ c.1 then cur.1 else c.1),
             (if cur.2 ≥ c.2 then cur.2 else c.2)) (c :: pend) above
         else mergeGo rb c [c] (cur :: above))) ∧
    merge_spans [(1,3),(3,5)] = .ok [(1,5)] ∧
    merge_spans [(1,3),(4,5)] = .ok [(1,3),(4,5)] := by
  refine ⟨?_, by decide, by decide⟩
  intro cur c rb pend above h1 h2
  rw [mergeGo_cons_eq, if_neg h1, if_neg h2]

/-- C1 witness: the merge-condition equation applied to the concrete current
span (3,5) and candidate (1,3), which touch and therefore coalesce. -/
theorem claim_C1_witness :
    ¬ ((1 : Int) = 3) ∧ ¬ ((3 : Int) < 1) ∧
    mergeGo [((1 : Int), (3 : Int))] ((3 : Int), (5 : Int)) [] [] =
      .ok [((1 : Int), (5 : Int))] := by
  refine ⟨by decide, by decide, ?_⟩
  rw [claim_C1.1 ((3 : Int), (5 : Int)) ((1 : Int), (3 : Int)) [] [] []
    (by decide) (by decide)]
  decide

/-- C2: the claimed order invariant of merge fails on the well-formed input
[(1,10),(2,3),(5,6)]: the output is [(1,10),(5,6)], in which the adjacent
spans are not strictly separated (10 is not < 5) — the sweep breaks at the
gap between (2,3) and (5,6) and then absorbs (1,10) into (2,3) without
re-examining the already finalized (5,6). -/
theorem claim_C2 :
    merge_spans [(1,10),(2,3),(5,6)] = .ok [(1,10),(5,6)] ∧
    (∀ s ∈ ([(1,10),(2,3),(5,6)] : List Span), s.1 ≤ s.2) ∧
    separatedb [(1,10),(5,6)] = false := by decide

/-- C3: coverage preservation — for any input of well-formed spans, merge
succeeds and a value is covered by the output exactly when it is covered by
the input (empty spans cover nothing and are dropped). -/
theorem claim_C3 (S : List Span) (hv : ∀ s ∈ S, s.1 ≤ s.2) :
    ∃ L, merge_spans S = .ok L ∧ ∀ v : Int, covers L v ↔ covers S v := by
  obtain ⟨L, hL, _, _⟩ := merge_spans_ok S hv
  exact ⟨L, hL, fun v => merge_spans_covers S L hL hv v⟩

/-- C3 witness: coverage preservation instantiated at a concrete input with
overlap, a separate span and an empty span. -/
theorem claim_C3_witness :
    (∀ s ∈ ([(1,3),(2,5),(7,9),(4,4)] : List Span), s.1 ≤ s.2) ∧
    ∃ L, merge_spans [(1,3),(2,5),(7,9),(4,4)] = .ok L ∧
      ∀ v : Int, covers L v ↔ covers [(1,3),(2,5),(7,9),(4,4)] v :=
  ⟨by decide, claim_C3 [(1,3),(2,5),(7,9),(4,4)] (by decide)⟩

/-- C4: double inversion — for a normalized non-empty collection and a bound
whose minimum is at most the first span's lo (the lowest lo) and whose
maximum is at least the last span's hi (the highest hi),
invert(invert(S,B),B) equals merge(S). -/
theorem claim_C4 (s : Span) (rest : List Span) (m M : Int)
    (h : normalizedb (s :: rest) = true) (hm : m ≤ s.1)
    (hM : (rest.getLastD s).2 ≤ M) :
    ∃ T, invert_spans (s :: rest) (some (m, M)) = .ok T ∧
      invert_spans T (some (m, M)) = merge_spans (s :: rest) := by
  have hsv := (normalizedb_iff _).mp h
  obtain ⟨T, h1, h2⟩ := invert_invert s rest m M hsv hm hM
  refine ⟨T, h1, ?_⟩
  rw [h2, merge_spans_of_sepValid hsv]

/-- C4 witness: double inversion at the normalized collection [(1,3),(5,7)]
under the strictly containing bound (0,10). -/
theorem claim_C4_witness :
    normalizedb [((1 : Int), (3 : Int)), (5, 7)] = true ∧
    ∃ T, invert_spans [((1 : Int), (3 : Int)), (5, 7)] (some (0, 10)) = .ok T ∧
      invert_spans T (some (0, 10)) =
        merge_spans [((1 : Int), (3 : Int)), (5, 7)] :=
  ⟨by decide, claim_C4 ((1 : Int), (3 : Int)) [(5, 7)] 0 10
    (by decide) (by decide) (by decide)⟩

/-- C5 counterexample: with zero non-empty spans — the empty collection — and
no bound, invert does not succeed with an empty result: evaluating
`spans[0][0]` on the empty merged list raises IndexError. -/
theorem claim_C5_counterexample :
    invert_spans [] none = .error (.indexError, []) := by decide

/-- C5 amended: with no bound supplied, an input holding exactly one
non-empty span (plus any number of empty spans, all well-formed) succeeds
and returns the empty collection; with zero non-empty spans the call instead
fails with an index error. -/
theorem claim_C5 :
    (∀ (S : List Span) (t : Span), (∀ s ∈ S, s.1 ≤ s.2) →
      S.filter (fun c => decide (c.1 ≠ c.2)) = [t] →
      invert_spans S none = .ok []) ∧
    invert_spans [] none = .error (.indexError, []) := by
  refine ⟨?_, by decide⟩
  intro S t hv hfil
  rw [invert_spans_none_eq S [t] (merge_spans_single S t hv hfil)]
  rfl

/-- C5 witness: a single non-empty span together with an empty span inverts,
without a bound, to the empty collection. -/
theorem claim_C5_witness :
    (([(1,1),(3,7)] : List Span).filter (fun c => decide (c.1 ≠ c.2)) =
      [((3 : Int), (7 : Int))]) ∧
    invert_spans [(1,1),(3,7)] none = .ok [] :=
  ⟨by decide, claim_C5.1 [(1,1),(3,7)] ((3 : Int), (7 : Int))
    (by decide) (by decide)⟩

/-- C6: the SpanSet normalization invariant fails at observable boundaries:
constructing a SpanSet from the well-formed input [(1,10),(2,3),(5,6)]
succeeds but stores the non-normalized collection [(1,10),(5,6)] (overlapping
spans, inherited from the merge sweep defect), and add of the invalid span
(5,2) raises while leaving the appended invalid span inside the internal
collection. -/
theorem claim_C6 :
    SpanSet.make [(1,10),(2,3),(5,6)] = .ok ⟨[(1,10),(5,6)]⟩ ∧
    normalizedb [(1,10),(5,6)] = false ∧
    SpanSet.add ⟨[(0,1)]⟩ (5,2) =
      .error (.valueError "max must be greater than min", ⟨[(0,1),(5,2)]⟩) ∧
    normalizedb [(0,1),(5,2)] = false := by decide

/-- C7 counterexample: the claimed failure condition is wrong in both
directions. A non-empty input holding only the empty span (1,1) with bound
(3,10) fails with IndexError rather than InvalidArgument; and the input
[(1,100),(3,4),(6,7)] with bound (0,50) succeeds even though its highest hi
(100) exceeds the bound maximum 50, because the code compares only the last
merged span's hi (7 here). -/
theorem claim_C7_counterexample :
    invert_spans [(1,1)] (some (3,10)) = .error (.indexError, []) ∧
    invert_spans [(1,100),(3,4),(6,7)] (some (0,50)) =
      .ok [(0,1),(100,6),(7,50)] := by decide

/-- C7 amended: for an input of well-formed spans whose merge yields the
non-empty list `first :: rest2`, invert with a bound fails with a ValueError
(InvalidArgument) exactly when `first.lo < min` or `max < ` the final merged
span's hi; in particular `invert([(2,5)], span_min_max=(3,10))` fails so. -/
theorem claim_C7 :
    (∀ (S : List Span) (m M : Int) (first : Span) (rest2 : List Span),
      (∀ s ∈ S, s.1 ≤ s.2) → merge_spans S = .ok (first :: rest2) →
      ((∃ msg st, invert_spans S (some (m, M)) = .error (.valueError msg, st)) ↔
        (first.1 < m ∨ M < (rest2.getLastD first).2))) ∧
    invert_spans [(2,5)] (some (3,10)) =
      .error (.valueError
        "span min must be less than or equal to the smallest span start",
        [(2,5)]) := by
  refine ⟨?_, by decide⟩
  intro S m M first rest2 hv hmer
  obtain ⟨out, hout, hch, hvout⟩ := merge_spans_ok S hv
  rw [hmer] at hout
  injection hout with hout
  have hfl : first.1 ≤ (rest2.getLastD first).2 :=
    merged_head_le_last out first rest2 hout.symm hch hvout
  have hS : ¬ S = [] := by
    intro h
    subst h
    rw [show merge_spans [] = .ok ([] : List Span) from rfl] at hmer
    simp at hmer
  by_cases hMm : M < m
  · refine iff_of_true ?_ (by omega)
    exact ⟨"span max must be greater than span min", S,
      invert_bound_invalid S m M hMm⟩
  · rw [invert_spans_eq_of_merge_cons S m M first rest2 hMm hS hmer]
    by_cases h1 : first.1 < m
    · rw [if_pos h1]
      exact iff_of_true ⟨_, _, rfl⟩ (Or.inl h1)
    · rw [if_neg h1]
      by_cases h2 : (rest2.getLastD first).2 > M
      · rw [if_pos h2]
        exact iff_of_true ⟨_, _, rfl⟩ (Or.inr (by omega))
      · rw [if_neg h2]
        refine iff_of_false ?_ (by omega)
        rintro ⟨msg, st, hbad⟩
        simp at hbad

/-- C7 witness: the failure criterion instantiated at the concrete input
[(2,5)] with bound (3,10), whose merge is the single span (2,5). -/
theorem claim_C7_witness :
    (∃ msg st, invert_spans [(2,5)] (some (3,10)) =
      .error (.valueError msg, st)) ↔ ((2 : Int) < 3 ∨ (10 : Int) < 5) :=
  claim_C7.1 [(2,5)] 3 10 ((2 : Int), (5 : Int)) [] (by decide) (by decide)

/-- C8: the in-place/copy contract of merge — for well-formed inputs, the
call with in_place=true returns None and leaves the caller's list holding the
merged result, while the call with in_place=false returns the merged result
and leaves the caller's list exactly as it was. -/
theorem claim_C8 (S : List Span) (hv : ∀ s ∈ S, s.1 ≤ s.2) :
    ∃ r, merge_spans S = .ok r ∧
      merge_spans_call S true = .ok (none, r) ∧
      merge_spans_call S false = .ok (some r, S) := by
  obtain ⟨r, hr, _, _⟩ := merge_spans_ok S hv
  refine ⟨r, hr, ?_, ?_⟩ <;> simp only [merge_spans_call, hr]

/-- C8 witness: the in-place/copy contract at the concrete overlapping input
[(1,3),(2,5)]. -/
theorem claim_C8_witness :
    (∀ s ∈ ([(1,3),(2,5)] : List Span), s.1 ≤ s.2) ∧
    ∃ r, merge_spans [(1,3),(2,5)] = .ok r ∧
      merge_spans_call [(1,3),(2,5)] true = .ok (none, r) ∧
      merge_spans_call [(1,3),(2,5)] false = .ok (some r, [(1,3),(2,5)]) :=
  ⟨by decide, claim_C8 [(1,3),(2,5)] (by decide)⟩

/-- C10: when in-place invert raises a ValueError other than the
invalid-bound error (i.e. a bound-containment failure), the caller's list has
already been merged in place: its contents equal the merge of the original
contents. At the concrete input [(1,3),(2,5)] with bound (10,20) the error
state [(1,5)] differs from the original contents — the operation is not
atomic on this error path. -/
theorem claim_C10 :
    (∀ (S : List Span) (m M : Int) (msg : String) (st : List Span),
      (∀ s ∈ S, s.1 ≤ s.2) →
      invert_spans_call S (some (m, M)) true = .error (.valueError msg, st) →
      ¬ msg = "span max must be greater than span min" →
      merge_spans S = .ok st) ∧
    invert_spans_call [(1,3),(2,5)] (some (10,20)) true =
      .error (.valueError
        "span min must be less than or equal to the smallest span start",
        [(1,5)]) ∧
    ¬ ([((1 : Int), (5 : Int))] = [((1 : Int), (3 : Int)), (2, 5)]) := by
  refine ⟨?_, by decide, by decide⟩
  intro S m M msg st hv herr hmsg
  obtain ⟨L, hL, hch, hvout⟩ := merge_spans_ok S hv
  by_cases hMm : M < m
  · rw [show invert_spans_call S (some (m, M)) true =
        (match invert_spans S (some (m, M)), true with
         | .ok r, true => .ok (none, r)
         | .ok r, false => .ok (some r, S)
         | .error (e, st), true => .error (e, st)
         | .error (e, _), false => .error (e, S)) from rfl,
      invert_bound_invalid S m M hMm] at herr
    simp at herr
    exact absurd herr.1.symm hmsg
  · by_cases hS : S = []
    · subst hS
      rw [show invert_spans_call [] (some (m, M)) true =
          (match invert_spans [] (some (m, M)), true with
           | .ok r, true => .ok (none, r)
           | .ok r, false => .ok (some r, [])
           | .error (e, st), true => .error (e, st)
           | .error (e, _), false => .error (e, [])) from rfl,
        invert_nil_bound m M hMm] at herr
      simp at herr
    · cases L with
      | nil =>
        rw [show invert_spans_call S (some (m, M)) true =
            (match invert_spans S (some (m, M)), true with
             | .ok r, true => .ok (none, r)
             | .ok r, false => .ok (some r, S)
             | .error (e, st), true => .error (e, st)
             | .error (e, _), false => .error (e, S)) from rfl,
          invert_spans_eq_of_merge S m M [] hMm hS hL] at herr
        simp at herr
      | cons first rest2 =>
        rw [show invert_spans_call S (some (m, M)) true =
            (match invert_spans S (some (m, M)), true with
             | .ok r, true => .ok (none, r)
             | .ok r, false => .ok (some r, S)
             | .error (e, st), true => .error (e, st)
             | .error (e, _), false => .error (e, S)) from rfl,
          invert_spans_eq_of_merge_cons S m M first rest2 hMm hS hL] at herr
        by_cases h1 : first.1 < m
        · rw [if_pos h1] at herr
          simp only [Except.error.injEq, Prod.mk.injEq,
            PyErr.valueError.injEq] at herr
          rw [← herr.2]
          exact hL
        · rw [if_neg h1] at herr
          by_cases h2 : (rest2.getLastD first).2 > M
          · rw [if_pos h2] at herr
            simp only [Except.error.injEq, Prod.mk.injEq,
              PyErr.valueError.injEq] at herr
            rw [← herr.2]
            exact hL
          · rw [if_neg h2] at herr
            simp at herr

/-- C10 witness: the non-atomicity fact instantiated concretely — the
in-place invert of [(1,3),(2,5)] under the non-containing bound (10,20)
raises the bound-containment error and leaves the caller's list equal to the
merge of its original contents. -/
theorem claim_C10_witness :
    merge_spans [(1,3),(2,5)] = .ok [((1 : Int), (5 : Int))] :=
  claim_C10.1 [(1,3),(2,5)] 10 20
    "span min must be less than or equal to the smallest span start"
    [((1 : Int), (5 : Int))] (by decide) (by decide) (by decide)

/-- C9: merge is not idempotent: merging the well-formed input
[(1,10),(2,3),(5,6)] yields [(1,10),(5,6)], but merging that output again
yields [(1,10)] — a different list, so merge(merge(S)) differs from
merge(S) on this input. -/
theorem claim_C9 :
    merge_spans [(1,10),(2,3),(5,6)] = .ok [(1,10),(5,6)] ∧
    merge_spans [(1,10),(5,6)] = .ok [(1,10)] ∧
    ¬ ([((1 : Int), (10 : Int))] = [((1 : Int), (10 : Int)), (5, 6)]) := by
  decide
